import Mathlib

/-!
Shallow embedding of the table block editor of the note-taking app
(`TableBlock` component): the `TableData` grid model and its operations
`moveTable`, `resizeTable`, `setCellValue`, `mergeSelected`, `splitSelected`,
`addRow`, `addCol`, `removeRow`, `removeCol`, `onCopy` (modelled as the
produced clipboard text) and `onPaste` (modelled as a function of the
clipboard text).

Modelling conventions:
* JS strings are modelled as `List Char`; `String.prototype.split` with a
  one-character separator is `splitSep`, `Array.prototype.join` is `joinSep`.
* JS numbers used as pixel coordinates/sizes are modelled as `ℚ` (exact
  arithmetic); column widths and row heights are `ℤ` (every value the code
  ever stores in them is an integer: the literals 120/42 and
  `Math.max(k, Math.round ...)` results).  `Math.round` is Mathlib's `round`
  (both round half toward +∞).
* Grid reads `cells[r][c]` are modelled with `Option`; the in-place
  assignments of the source's `for` loops are modelled as index-aware maps
  (`mapGrid`) and index updates (`setAt`) over the cloned grid.
-/

namespace SoftNotes

structure TableCell where
  value : List Char
  rowSpan : Nat
  colSpan : Nat
  hidden : Bool
deriving DecidableEq, Repr

structure TableData where
  id : String
  x : ℚ
  y : ℚ
  colWidths : List ℤ
  rowHeights : List ℤ
  cells : List (List TableCell)
deriving DecidableEq, Repr

structure TableSelection where
  startRow : Nat
  startCol : Nat
  endRow : Nat
  endCol : Nat
deriving DecidableEq, Repr

/-- `createCell` from the source: a fresh empty unit cell. -/
def createCell : TableCell :=
  { value := [], rowSpan := 1, colSpan := 1, hidden := false }

/-- Read `cells[r][c]` (JS array indexing, `none` when out of bounds). -/
def getCellOf (cells : List (List TableCell)) (r c : Nat) : Option TableCell :=
  cells[r]?.bind fun row => row[c]?

def getCell (t : TableData) (r c : Nat) : Option TableCell :=
  getCellOf t.cells r c

/-- Total variant of `getCell`, defaulting to a fresh unit cell. -/
def getCellD (t : TableData) (r c : Nat) : TableCell :=
  (getCell t r c).getD createCell

/-- `mapIdxFrom f i [a, b, ...] = [f i a, f (i+1) b, ...]`. -/
def mapIdxFrom (f : Nat → α → β) : Nat → List α → List β
  | _, [] => []
  | i, a :: as => f i a :: mapIdxFrom f (i + 1) as

/-- Apply `f r c` to the cell at each position `(r, c)` of a grid. -/
def mapGrid (cells : List (List TableCell))
    (f : Nat → Nat → TableCell → TableCell) : List (List TableCell) :=
  mapIdxFrom (fun r row => mapIdxFrom (fun c cell => f r c cell) 0 row) 0 cells

/-- In-place update `l[i] = f l[i]` (no-op when out of bounds). -/
def setAt (f : α → α) : Nat → List α → List α
  | _, [] => []
  | 0, a :: as => f a :: as
  | i + 1, a :: as => a :: setAt f i as

/-- `moveTable` from the source: clamp the dragged position to the page. -/
def moveTable (t : TableData) (left top : ℚ) : TableData :=
  { t with x := max 0 left, y := max 0 top }

/-- `tableWidth`: the reduce-sum of the column widths. -/
def tableWidth (t : TableData) : ℚ :=
  ((t.colWidths.sum : ℤ) : ℚ)

/-- `tableHeight`: the reduce-sum of the row heights. -/
def tableHeight (t : TableData) : ℚ :=
  ((t.rowHeights.sum : ℤ) : ℚ)

/-- `resizeTable` from the source: floor the candidate totals at 240×120,
rescale each column/row proportionally, round, and floor at 80/34. -/
def resizeTable (t : TableData) (nextWidth nextHeight : ℚ) : TableData :=
  let safeWidth := max 240 nextWidth
  let safeHeight := max 120 nextHeight
  let widthRatio := safeWidth / tableWidth t
  let heightRatio := safeHeight / tableHeight t
  { t with
    colWidths := t.colWidths.map fun (w : ℤ) => max 80 (round ((w : ℚ) * widthRatio)),
    rowHeights := t.rowHeights.map fun (h : ℤ) => max 34 (round ((h : ℚ) * heightRatio)) }

/-- `setCellValue` from the source: `next.cells[row][col].value = value`. -/
def setCellValue (t : TableData) (row col : Nat) (v : List Char) : TableData :=
  { t with
    cells := setAt (fun cs => setAt (fun cell => { cell with value := v }) col cs)
      row t.cells }

/-- The hidden-cell scan of `mergeSelected`: does any cell of the closed
rectangle `[minRow, maxRow] × [minCol, maxCol]` have `hidden = true`? -/
def hiddenInRect (cells : List (List TableCell))
    (minRow maxRow minCol maxCol : Nat) : Bool :=
  (List.range' minRow (maxRow + 1 - minRow)).any fun r =>
    (List.range' minCol (maxCol + 1 - minCol)).any fun c =>
      match getCellOf cells r c with
      | some cell => cell.hidden
      | none => false

/-- The source's `minRow` local: `Math.min(selection.startRow, selection.endRow)`. -/
def normMinRow (s : TableSelection) : Nat := min s.startRow s.endRow

/-- The source's `maxRow` local: `Math.max(selection.startRow, selection.endRow)`. -/
def normMaxRow (s : TableSelection) : Nat := max s.startRow s.endRow

/-- The source's `minCol` local: `Math.min(selection.startCol, selection.endCol)`. -/
def normMinCol (s : TableSelection) : Nat := min s.startCol s.endCol

/-- The source's `maxCol` local: `Math.max(selection.startCol, selection.endCol)`. -/
def normMaxCol (s : TableSelection) : Nat := max s.startCol s.endCol

/-- Body of `mergeSelected` after the `min`/`max` normalization. -/
def mergeRect (t : TableData) (minRow maxRow minCol maxCol : Nat) : TableData :=
  if minRow = maxRow ∧ minCol = maxCol then t
  else if hiddenInRect t.cells minRow maxRow minCol maxCol then t
  else
    { t with
      cells := mapGrid t.cells fun r c cell =>
        if minRow ≤ r ∧ r ≤ maxRow ∧ minCol ≤ c ∧ c ≤ maxCol then
          if r = minRow ∧ c = minCol then
            { cell with rowSpan := maxRow - minRow + 1, colSpan := maxCol - minCol + 1 }
          else { cell with hidden := true }
        else cell }

/-- `mergeSelected` from the source: normalize the selection rectangle, then
merge it. -/
def mergeSelected (t : TableData) (s : TableSelection) : TableData :=
  mergeRect t (normMinRow s) (normMaxRow s) (normMinCol s) (normMaxCol s)

/-- `splitSelected` from the source: read the cell at the selection's start
corner; when it spans, reset its whole span rectangle to visible unit cells. -/
def splitSelected (t : TableData) (s : TableSelection) : TableData :=
  let root := getCellD t s.startRow s.startCol
  if root.rowSpan = 1 ∧ root.colSpan = 1 then t
  else
    { t with
      cells := mapGrid t.cells fun r c cell =>
        if s.startRow ≤ r ∧ r < s.startRow + root.rowSpan ∧
            s.startCol ≤ c ∧ c < s.startCol + root.colSpan then
          { cell with hidden := false, rowSpan := 1, colSpan := 1 }
        else cell }

/-- `addRow` from the source. -/
def addRow (t : TableData) : TableData :=
  { t with
    cells := t.cells ++ [List.replicate t.colWidths.length createCell],
    rowHeights := t.rowHeights ++ [42] }

/-- `addCol` from the source. -/
def addCol (t : TableData) : TableData :=
  { t with
    cells := t.cells.map fun row => row ++ [createCell],
    colWidths := t.colWidths ++ [120] }

/-- `removeRow` from the source. -/
def removeRow (t : TableData) : TableData :=
  if t.cells.length ≤ 1 then t
  else { t with cells := t.cells.dropLast, rowHeights := t.rowHeights.dropLast }

/-- `removeCol` from the source. -/
def removeCol (t : TableData) : TableData :=
  if t.colWidths.length ≤ 1 then t
  else { t with cells := t.cells.map List.dropLast, colWidths := t.colWidths.dropLast }

/-- `Array.prototype.join` with a one-character separator. -/
def joinSep (sep : Char) : List (List Char) → List Char
  | [] => []
  | [x] => x
  | x :: xs => x ++ sep :: joinSep sep xs

/-- `String.prototype.split` with a one-character separator
(JS: `"".split(sep)` is `[""]`, a trailing separator yields a trailing `""`). -/
def splitSep (sep : Char) : List Char → List (List Char)
  | [] => [[]]
  | ch :: rest =>
    match splitSep sep rest with
    | [] => if ch = sep then [[], []] else [[ch]]
    | a :: as => if ch = sep then [] :: a :: as else (ch :: a) :: as

/-- Body of `onCopy` after the `min`/`max` normalization: the text written to
the clipboard. -/
def copyRect (t : TableData) (minRow maxRow minCol maxCol : Nat) : List Char :=
  joinSep '\n' ((List.range (maxRow - minRow + 1)).map fun rOff =>
    joinSep '\t' ((List.range (maxCol - minCol + 1)).map fun cOff =>
      match getCell t (minRow + rOff) (minCol + cOff) with
      | some cell => if cell.hidden then [] else cell.value
      | none => []))

/-- `onCopy` from the source, modelled as the clipboard text it produces. -/
def copyText (t : TableData) (s : TableSelection) : List Char :=
  copyRect t (normMinRow s) (normMaxRow s) (normMinCol s) (normMaxCol s)

/-- One assignment of `onPaste`'s inner loop:
`if (next.cells[row]?.[col] && !next.cells[row][col].hidden) value = v`. -/
def pasteCell (cells : List (List TableCell)) (row col : Nat) (v : List Char) :
    List (List TableCell) :=
  match getCellOf cells row col with
  | none => cells
  | some cell =>
    if cell.hidden then cells
    else setAt (fun cs => setAt (fun cell => { cell with value := v }) col cs) row cells

/-- `onPaste`'s inner `forEach`: write one pasted line starting at `col`. -/
def pasteLineFrom (row : Nat) :
    List (List TableCell) → Nat → List (List Char) → List (List TableCell)
  | cells, _, [] => cells
  | cells, col, v :: vs => pasteLineFrom row (pasteCell cells row col v) (col + 1) vs

/-- `onPaste`'s outer `forEach`: write the pasted lines starting at `(row, col)`. -/
def pasteLinesFrom :
    List (List TableCell) → Nat → Nat → List (List (List Char)) → List (List TableCell)
  | cells, _, _, [] => cells
  | cells, row, col, line :: rest =>
    pasteLinesFrom (pasteLineFrom row cells col line) (row + 1) col rest

/-- `onPaste` from the source, modelled as a function of the clipboard text:
no-op on empty text, else split into lines and tab-separated values and write
them at the selection's start corner. -/
def onPaste (t : TableData) (s : TableSelection) (pasted : List Char) : TableData :=
  if pasted = [] then t
  else
    let lines := (splitSep '\n' pasted).map (splitSep '\t')
    { t with cells := pasteLinesFrom t.cells s.startRow s.startCol lines }

/-- The grid rectangularity invariant of the data model: `cells.length`
matches `rowHeights.length` and every row's length matches `colWidths.length`. -/
def Rectangular (t : TableData) : Prop :=
  t.cells.length = t.rowHeights.length ∧ ∀ row ∈ t.cells, row.length = t.colWidths.length

instance (t : TableData) : Decidable (Rectangular t) :=
  inferInstanceAs (Decidable (_ ∧ _))

/-- Hypothesis checker: every position of the closed rectangle holds a cell
(the rectangle lies inside the grid). -/
def rectInBounds (cells : List (List TableCell))
    (minRow maxRow minCol maxCol : Nat) : Bool :=
  (List.range' minRow (maxRow + 1 - minRow)).all fun r =>
    (List.range' minCol (maxCol + 1 - minCol)).all fun c =>
      (getCellOf cells r c).isSome

/-- Hypothesis checker: every position of the closed rectangle holds a
non-hidden unit cell. -/
def unitRect (cells : List (List TableCell))
    (minRow maxRow minCol maxCol : Nat) : Bool :=
  (List.range' minRow (maxRow + 1 - minRow)).all fun r =>
    (List.range' minCol (maxCol + 1 - minCol)).all fun c =>
      match getCellOf cells r c with
      | some cell => !cell.hidden && cell.rowSpan == 1 && cell.colSpan == 1
      | none => false

/-- Hypothesis checker: every position of the closed rectangle holds a
non-hidden cell whose value contains no tab and no newline. -/
def copyableRect (cells : List (List TableCell))
    (minRow maxRow minCol maxCol : Nat) : Bool :=
  (List.range' minRow (maxRow + 1 - minRow)).all fun r =>
    (List.range' minCol (maxCol + 1 - minCol)).all fun c =>
      match getCellOf cells r c with
      | some cell => !cell.hidden && !(decide ('\t' ∈ cell.value)) && !(decide ('\n' ∈ cell.value))
      | none => false

/-! ### Infrastructure lemmas -/

theorem length_mapIdxFrom (f : Nat → α → β) (i : Nat) (l : List α) :
    (mapIdxFrom f i l).length = l.length := by
  induction l generalizing i with
  | nil => rfl
  | cons a as ih => simp [mapIdxFrom, ih]

theorem getElem?_mapIdxFrom (f : Nat → α → β) (i j : Nat) (l : List α) :
    (mapIdxFrom f i l)[j]? = l[j]?.map (f (i + j)) := by
  induction l generalizing i j with
  | nil => simp [mapIdxFrom]
  | cons a as ih =>
    cases j with
    | zero => simp [mapIdxFrom]
    | succ j =>
      have harith : i + 1 + j = i + (j + 1) := by omega
      simp only [mapIdxFrom, List.getElem?_cons_succ, ih (i + 1) j, harith]

theorem mapIdxFrom_mapIdxFrom (f : Nat → α → β) (g : Nat → β → γ) (i : Nat)
    (l : List α) :
    mapIdxFrom g i (mapIdxFrom f i l) = mapIdxFrom (fun j a => g j (f j a)) i l := by
  induction l generalizing i with
  | nil => rfl
  | cons a as ih => simp [mapIdxFrom, ih]

theorem mapIdxFrom_id_of_getElem? (f : Nat → α → α) (i : Nat) (l : List α)
    (h : ∀ j a, l[j]? = some a → f (i + j) a = a) : mapIdxFrom f i l = l := by
  induction l generalizing i with
  | nil => rfl
  | cons a as ih =>
    simp only [mapIdxFrom, List.cons.injEq]
    refine ⟨by simpa using h 0 a (by simp), ih (i + 1) fun j b hb => ?_⟩
    have harith : i + 1 + j = i + (j + 1) := by omega
    rw [harith]
    exact h (j + 1) b (by simpa using hb)

theorem length_mapGrid (cells : List (List TableCell))
    (f : Nat → Nat → TableCell → TableCell) :
    (mapGrid cells f).length = cells.length :=
  length_mapIdxFrom _ _ _

theorem getElem?_mapGrid (cells : List (List TableCell))
    (f : Nat → Nat → TableCell → TableCell) (r : Nat) :
    (mapGrid cells f)[r]? =
      cells[r]?.map (mapIdxFrom (fun c cell => f r c cell) 0) := by
  unfold mapGrid
  rw [getElem?_mapIdxFrom]
  simp

theorem getCellOf_mapGrid (cells : List (List TableCell))
    (f : Nat → Nat → TableCell → TableCell) (r c : Nat) :
    getCellOf (mapGrid cells f) r c = (getCellOf cells r c).map (f r c) := by
  unfold getCellOf
  rw [getElem?_mapGrid]
  cases h : cells[r]? with
  | none => simp
  | some row => simp [getElem?_mapIdxFrom]

theorem mapGrid_mapGrid (cells : List (List TableCell))
    (f g : Nat → Nat → TableCell → TableCell) :
    mapGrid (mapGrid cells f) g = mapGrid cells fun r c cell => g r c (f r c cell) := by
  unfold mapGrid
  simp only [mapIdxFrom_mapIdxFrom]

theorem mapGrid_id_of_getCellOf (cells : List (List TableCell))
    (f : Nat → Nat → TableCell → TableCell)
    (h : ∀ r c cell, getCellOf cells r c = some cell → f r c cell = cell) :
    mapGrid cells f = cells := by
  unfold mapGrid
  apply mapIdxFrom_id_of_getElem?
  intro r row hrow
  apply mapIdxFrom_id_of_getElem?
  intro c cell hcell
  simp only [Nat.zero_add]
  exact h r c cell (by unfold getCellOf; rw [hrow]; simpa using hcell)

theorem length_setAt (f : α → α) (i : Nat) (l : List α) :
    (setAt f i l).length = l.length := by
  induction l generalizing i with
  | nil => simp [setAt]
  | cons a as ih =>
    cases i with
    | zero => simp [setAt]
    | succ i => simp [setAt, ih]

theorem getElem?_setAt (f : α → α) (i j : Nat) (l : List α) :
    (setAt f i l)[j]? = if i = j then l[j]?.map f else l[j]? := by
  induction l generalizing i j with
  | nil => simp [setAt]
  | cons a as ih =>
    cases i with
    | zero =>
      cases j with
      | zero => simp [setAt]
      | succ j => simp [setAt]
    | succ i =>
      cases j with
      | zero => simp [setAt]
      | succ j =>
        simp only [setAt, List.getElem?_cons_succ]
        rw [ih]
        by_cases h : i = j
        · rw [if_pos h, if_pos (by omega)]
        · rw [if_neg h, if_neg (by omega)]

theorem grid_ext (cellsA cellsB : List (List TableCell))
    (hlen : cellsA.length = cellsB.length)
    (hcell : ∀ r c, getCellOf cellsA r c = getCellOf cellsB r c) :
    cellsA = cellsB := by
  apply List.ext_getElem?
  intro r
  by_cases hr : r < cellsA.length
  · cases h₁ : cellsA[r]? with
    | none => exact absurd (List.getElem?_eq_none_iff.mp h₁) (by omega)
    | some rowA =>
      cases h₂ : cellsB[r]? with
      | none => exact absurd (List.getElem?_eq_none_iff.mp h₂) (by omega)
      | some rowB =>
        congr 1
        apply List.ext_getElem?
        intro c
        have hc := hcell r c
        unfold getCellOf at hc
        rw [h₁, h₂] at hc
        simpa using hc
  · rw [List.getElem?_eq_none (by omega), List.getElem?_eq_none (by omega)]

theorem mem_range'_iff {s n m : Nat} : m ∈ List.range' s n ↔ s ≤ m ∧ m < s + n := by
  rw [List.mem_range']
  constructor
  · rintro ⟨i, hi, rfl⟩
    omega
  · intro h
    exact ⟨m - s, by omega, by omega⟩

theorem hiddenInRect_eq_true_iff {cells : List (List TableCell)}
    {a b c' d : Nat} :
    hiddenInRect cells a b c' d = true ↔
      ∃ r c cell, a ≤ r ∧ r ≤ b ∧ c' ≤ c ∧ c ≤ d ∧
        getCellOf cells r c = some cell ∧ cell.hidden = true := by
  unfold hiddenInRect
  rw [List.any_eq_true]
  constructor
  · rintro ⟨r, hr, hany⟩
    rw [List.any_eq_true] at hany
    obtain ⟨c, hc, hp⟩ := hany
    rw [mem_range'_iff] at hr hc
    cases hget : getCellOf cells r c with
    | none => rw [hget] at hp; simp at hp
    | some cell =>
      rw [hget] at hp
      exact ⟨r, c, cell, by omega, by omega, by omega, by omega, hget, hp⟩
  · rintro ⟨r, c, cell, h1, h2, h3, h4, hget, hh⟩
    refine ⟨r, mem_range'_iff.2 ⟨h1, by omega⟩, ?_⟩
    rw [List.any_eq_true]
    exact ⟨c, mem_range'_iff.2 ⟨h3, by omega⟩, by rw [hget]; exact hh⟩

theorem rectInBounds_spec {cells : List (List TableCell)} {a b c' d : Nat}
    (h : rectInBounds cells a b c' d = true) :
    ∀ r c, a ≤ r → r ≤ b → c' ≤ c → c ≤ d →
      ∃ cell, getCellOf cells r c = some cell := by
  intro r c h1 h2 h3 h4
  unfold rectInBounds at h
  simp only [List.all_eq_true] at h
  have hc := h r (mem_range'_iff.2 ⟨h1, by omega⟩) c (mem_range'_iff.2 ⟨h3, by omega⟩)
  cases hget : getCellOf cells r c with
  | none => rw [hget] at hc; simp at hc
  | some cell => exact ⟨cell, rfl⟩

theorem unitRect_spec {cells : List (List TableCell)} {a b c' d : Nat}
    (h : unitRect cells a b c' d = true) :
    ∀ r c, a ≤ r → r ≤ b → c' ≤ c → c ≤ d →
      ∃ cell, getCellOf cells r c = some cell ∧
        cell.hidden = false ∧ cell.rowSpan = 1 ∧ cell.colSpan = 1 := by
  intro r c h1 h2 h3 h4
  unfold unitRect at h
  simp only [List.all_eq_true] at h
  have hc := h r (mem_range'_iff.2 ⟨h1, by omega⟩) c (mem_range'_iff.2 ⟨h3, by omega⟩)
  cases hget : getCellOf cells r c with
  | none => rw [hget] at hc; simp at hc
  | some cell =>
    rw [hget] at hc
    simp only [Bool.and_eq_true, Bool.not_eq_true', beq_iff_eq] at hc
    exact ⟨cell, rfl, hc.1.1, hc.1.2, hc.2⟩

theorem copyableRect_spec {cells : List (List TableCell)} {a b c' d : Nat}
    (h : copyableRect cells a b c' d = true) :
    ∀ r c, a ≤ r → r ≤ b → c' ≤ c → c ≤ d →
      ∃ cell, getCellOf cells r c = some cell ∧ cell.hidden = false ∧
        '\t' ∉ cell.value ∧ '\n' ∉ cell.value := by
  intro r c h1 h2 h3 h4
  unfold copyableRect at h
  simp only [List.all_eq_true] at h
  have hc := h r (mem_range'_iff.2 ⟨h1, by omega⟩) c (mem_range'_iff.2 ⟨h3, by omega⟩)
  cases hget : getCellOf cells r c with
  | none => rw [hget] at hc; simp at hc
  | some cell =>
    rw [hget] at hc
    simp only [Bool.and_eq_true, Bool.not_eq_true', decide_eq_false_iff_not] at hc
    exact ⟨cell, rfl, hc.1.1, hc.1.2, hc.2⟩

/-! ### Concrete tables for witnesses and counterexamples -/

/-- A 2×2 table of fresh unit cells. -/
def tableTwoByTwo : TableData :=
  { id := "t", x := 0, y := 0, colWidths := [120, 120], rowHeights := [42, 42],
    cells := [[createCell, createCell], [createCell, createCell]] }

/-- The 2×2 table with its full rectangle merged: root at `(0,0)` spanning
2×2, the other three cells hidden. -/
def tableTwoByTwoMerged : TableData :=
  { id := "t", x := 0, y := 0, colWidths := [120, 120], rowHeights := [42, 42],
    cells := [[{ value := [], rowSpan := 2, colSpan := 2, hidden := false },
               { value := [], rowSpan := 1, colSpan := 1, hidden := true }],
              [{ value := [], rowSpan := 1, colSpan := 1, hidden := true },
               { value := [], rowSpan := 1, colSpan := 1, hidden := true }]] }

/-- Scenario B's grid: `(0,0) = "A"`, `(0,1) = "B"`, second row empty. -/
def tableScenarioB : TableData :=
  { id := "b", x := 0, y := 0, colWidths := [120, 120], rowHeights := [42, 42],
    cells := [[{ createCell with value := ['A'] }, { createCell with value := ['B'] }],
              [createCell, createCell]] }

/-- A 1×1 table whose single cell's value contains a tab. -/
def tableTabValue : TableData :=
  { id := "v", x := 0, y := 0, colWidths := [120], rowHeights := [42],
    cells := [[{ createCell with value := ['A', '\t', 'B'] }]] }

/-- A 1×1 table whose single cell's value is `"X"`. -/
def tableValueX : TableData :=
  { id := "x", x := 0, y := 0, colWidths := [120], rowHeights := [42],
    cells := [[{ createCell with value := ['X'] }]] }

/-- A 3-row, 1-column table with row heights 101, 101, 98 (total 300). -/
def tableThreeRows : TableData :=
  { id := "r", x := 0, y := 0, colWidths := [480], rowHeights := [101, 101, 98],
    cells := [[createCell], [createCell], [createCell]] }

/-! ### Claims -/

/-- C10: the geometry operations never touch grid content.  `resizeTable`
changes only `colWidths` and `rowHeights` (`id`, `x`, `y` and all cells are
unchanged); `moveTable` changes only `x` and `y`, each clamped to be at
least 0 (`id`, `colWidths`, `rowHeights` and all cells are unchanged). -/
theorem claim10_geometry_frame (t : TableData) (nw nh left top : ℚ) :
    (resizeTable t nw nh).id = t.id ∧ (resizeTable t nw nh).x = t.x ∧
    (resizeTable t nw nh).y = t.y ∧ (resizeTable t nw nh).cells = t.cells ∧
    (moveTable t left top).id = t.id ∧
    (moveTable t left top).colWidths = t.colWidths ∧
    (moveTable t left top).rowHeights = t.rowHeights ∧
    (moveTable t left top).cells = t.cells ∧
    (moveTable t left top).x = max 0 left ∧
    (moveTable t left top).y = max 0 top ∧
    0 ≤ (moveTable t left top).x ∧ 0 ≤ (moveTable t left top).y :=
  ⟨rfl, rfl, rfl, rfl, rfl, rfl, rfl, rfl, rfl, rfl,
    le_max_left 0 left, le_max_left 0 top⟩

/-- C4 (amended): merge and copy are invariant under exchanging the
selection's corners — only the normalized rectangle matters; paste is not:
it is anchored at the selection's start corner, and its result depends
exactly on that corner (the end corner is ignored). -/
theorem claim4_normalized_rectangle (t : TableData) (s : TableSelection)
    (text : List Char) (endRow' endCol' : Nat) :
    mergeSelected t ⟨s.endRow, s.endCol, s.startRow, s.startCol⟩ = mergeSelected t s ∧
    copyText t ⟨s.endRow, s.endCol, s.startRow, s.startCol⟩ = copyText t s ∧
    onPaste t ⟨s.startRow, s.startCol, endRow', endCol'⟩ text = onPaste t s text := by
  refine ⟨?_, ?_, rfl⟩
  · show mergeRect t (min s.endRow s.startRow) (max s.endRow s.startRow)
      (min s.endCol s.startCol) (max s.endCol s.startCol) = mergeSelected t s
    rw [Nat.min_comm s.endRow, Nat.max_comm s.endRow, Nat.min_comm s.endCol,
      Nat.max_comm s.endCol]
    rfl
  · show copyRect t (min s.endRow s.startRow) (max s.endRow s.startRow)
      (min s.endCol s.startCol) (max s.endCol s.startCol) = copyText t s
    rw [Nat.min_comm s.endRow, Nat.max_comm s.endRow, Nat.min_comm s.endCol,
      Nat.max_comm s.endCol]
    rfl

/-- C4 counterexample: pasting `"Z"` with selection `(0,0)–(1,1)` writes the
top-left cell, while the corner-exchanged selection `(1,1)–(0,0)` writes the
bottom-right cell — paste is not invariant under exchanging the corners. -/
theorem claim4_counterexample :
    onPaste tableTwoByTwo ⟨0, 0, 1, 1⟩ ['Z'] ≠
      onPaste tableTwoByTwo ⟨1, 1, 0, 0⟩ ['Z'] := by
  decide

theorem normMinRow_le_normMaxRow (s : TableSelection) : normMinRow s ≤ normMaxRow s :=
  min_le_max

theorem normMinCol_le_normMaxCol (s : TableSelection) : normMinCol s ≤ normMaxCol s :=
  min_le_max

/-- C5: merge normalizes the selection; it leaves the table unchanged when
the rectangle is a single cell or contains a hidden cell; otherwise it gives
the top-left cell the rectangle's spans, hides every other cell of the
rectangle, leaves cells outside the rectangle unchanged, and never changes
any cell's value.  (The selection is assumed to lie inside the grid, as the
UI guarantees; out of bounds the source would throw.) -/
theorem claim5_merge_semantics (t : TableData) (s : TableSelection)
    (hb : rectInBounds t.cells (normMinRow s) (normMaxRow s) (normMinCol s)
      (normMaxCol s) = true) :
    (normMinRow s = normMaxRow s ∧ normMinCol s = normMaxCol s →
      mergeSelected t s = t) ∧
    (hiddenInRect t.cells (normMinRow s) (normMaxRow s) (normMinCol s)
        (normMaxCol s) = true →
      mergeSelected t s = t) ∧
    (¬(normMinRow s = normMaxRow s ∧ normMinCol s = normMaxCol s) →
      hiddenInRect t.cells (normMinRow s) (normMaxRow s) (normMinCol s)
          (normMaxCol s) = false →
      (∀ cell, getCell t (normMinRow s) (normMinCol s) = some cell →
        getCell (mergeSelected t s) (normMinRow s) (normMinCol s) =
          some { cell with rowSpan := normMaxRow s - normMinRow s + 1,
                           colSpan := normMaxCol s - normMinCol s + 1 }) ∧
      (∀ r c cell, normMinRow s ≤ r → r ≤ normMaxRow s → normMinCol s ≤ c →
        c ≤ normMaxCol s → ¬(r = normMinRow s ∧ c = normMinCol s) →
        getCell t r c = some cell →
        getCell (mergeSelected t s) r c = some { cell with hidden := true }) ∧
      (∀ r c, ¬(normMinRow s ≤ r ∧ r ≤ normMaxRow s ∧ normMinCol s ≤ c ∧
          c ≤ normMaxCol s) →
        getCell (mergeSelected t s) r c = getCell t r c) ∧
      (∀ r c cellA cellB, getCell t r c = some cellA →
        getCell (mergeSelected t s) r c = some cellB →
        cellB.value = cellA.value)) := by
  refine ⟨?_, ?_, ?_⟩
  · intro h
    unfold mergeSelected mergeRect
    rw [if_pos h]
  · intro h
    unfold mergeSelected mergeRect
    by_cases hsingle : normMinRow s = normMaxRow s ∧ normMinCol s = normMaxCol s
    · rw [if_pos hsingle]
    · rw [if_neg hsingle]
      simp [h]
  · intro hsingle hhid
    have key : ∀ r c, getCell (mergeSelected t s) r c =
        (getCell t r c).map fun cell =>
          if normMinRow s ≤ r ∧ r ≤ normMaxRow s ∧ normMinCol s ≤ c ∧
              c ≤ normMaxCol s then
            if r = normMinRow s ∧ c = normMinCol s then
              { cell with rowSpan := normMaxRow s - normMinRow s + 1,
                          colSpan := normMaxCol s - normMinCol s + 1 }
            else { cell with hidden := true }
          else cell := by
      intro r c
      unfold mergeSelected mergeRect
      rw [if_neg hsingle, if_neg (by simp [hhid])]
      exact getCellOf_mapGrid t.cells _ r c
    refine ⟨?_, ?_, ?_, ?_⟩
    · intro cell hget
      rw [key, hget]
      simp only [Option.map_some']
      split_ifs with h1 h2
      · rfl
      · exact absurd (by simp) h2
      · exact absurd ⟨le_refl _, normMinRow_le_normMaxRow s, le_refl _,
          normMinCol_le_normMaxCol s⟩ h1
    · intro r c cell h1 h2 h3 h4 hnot hget
      rw [key, hget]
      simp only [Option.map_some']
      split_ifs with hA
      · rfl
      · exact absurd ⟨h1, h2, h3, h4⟩ hA
    · intro r c hnot
      rw [key]
      cases hget : getCell t r c with
      | none => rfl
      | some cell =>
        simp only [Option.map_some']
        split_ifs
        rfl
    · intro r c cellA cellB hgetA hgetB
      rw [key, hgetA] at hgetB
      simp only [Option.map_some', Option.some.injEq] at hgetB
      rw [← hgetB]
      split_ifs <;> rfl

/-- C5 witness: merging the full 2×2 rectangle of a fresh 2×2 table makes
cell `(0,1)` hidden with its value untouched. -/
theorem claim5_merge_semantics_witness :
    getCell (mergeSelected tableTwoByTwo ⟨0, 0, 1, 1⟩) 0 1 =
      some { value := [], rowSpan := 1, colSpan := 1, hidden := true } :=
  ((claim5_merge_semantics tableTwoByTwo ⟨0, 0, 1, 1⟩ (by decide)).2.2
    (by decide) (by decide)).2.1 0 1 createCell (by decide) (by decide)
    (by decide) (by decide) (by decide) rfl

/-- C2 (amended): split operates on the cell at the selection's start corner.
When that cell is a spanning root, every cell of its span rectangle is
restored to `rowSpan = 1, colSpan = 1, hidden = false` and cells outside the
rectangle are unchanged; when that cell is a unit cell — in particular any
hidden member cell of a merged region — split leaves the table unchanged. -/
theorem claim2_split_semantics (t : TableData) (s : TableSelection)
    (root : TableCell) (hget : getCell t s.startRow s.startCol = some root) :
    (root.rowSpan = 1 ∧ root.colSpan = 1 → splitSelected t s = t) ∧
    (¬(root.rowSpan = 1 ∧ root.colSpan = 1) →
      (∀ r c cell, s.startRow ≤ r → r < s.startRow + root.rowSpan →
        s.startCol ≤ c → c < s.startCol + root.colSpan →
        getCell t r c = some cell →
        getCell (splitSelected t s) r c =
          some { cell with hidden := false, rowSpan := 1, colSpan := 1 }) ∧
      (∀ r c, ¬(s.startRow ≤ r ∧ r < s.startRow + root.rowSpan ∧
          s.startCol ≤ c ∧ c < s.startCol + root.colSpan) →
        getCell (splitSelected t s) r c = getCell t r c)) := by
  have hrootD : getCellD t s.startRow s.startCol = root := by
    rw [getCellD, hget]
    rfl
  constructor
  · intro h
    simp only [splitSelected, hrootD]
    rw [if_pos h]
  · intro h
    have key : ∀ r c, getCell (splitSelected t s) r c =
        (getCell t r c).map fun cell =>
          if s.startRow ≤ r ∧ r < s.startRow + root.rowSpan ∧
              s.startCol ≤ c ∧ c < s.startCol + root.colSpan then
            { cell with hidden := false, rowSpan := 1, colSpan := 1 }
          else cell := by
      intro r c
      simp only [splitSelected, hrootD]
      rw [if_neg h]
      exact getCellOf_mapGrid t.cells _ r c
    refine ⟨?_, ?_⟩
    · intro r c cell h1 h2 h3 h4 hgetc
      rw [key, hgetc]
      simp only [Option.map_some']
      split_ifs with hA
      · rfl
      · exact absurd ⟨h1, h2, h3, h4⟩ hA
    · intro r c hnot
      rw [key]
      cases hgetc : getCell t r c with
      | none => rfl
      | some cell =>
        simp only [Option.map_some']
        split_ifs
        rfl

/-- C2 witness: splitting the merged 2×2 table anchored at its root `(0,0)`
restores the bottom-right cell `(1,1)` to a visible unit cell. -/
theorem claim2_split_semantics_witness :
    getCell (splitSelected tableTwoByTwoMerged ⟨0, 0, 0, 0⟩) 1 1 =
      some { value := [], rowSpan := 1, colSpan := 1, hidden := false } :=
  ((claim2_split_semantics tableTwoByTwoMerged ⟨0, 0, 0, 0⟩
      { value := [], rowSpan := 2, colSpan := 2, hidden := false } rfl).2
    (by decide)).1 1 1 { value := [], rowSpan := 1, colSpan := 1, hidden := true }
    (by decide) (by decide) (by decide) (by decide) rfl

/-- C2 counterexample: `(0,1)` is a hidden member of the merged 2×2 region,
yet split anchored there leaves the table unchanged (the region stays
merged), contrary to the claim that splitting at any covered coordinate
restores the region. -/
theorem claim2_counterexample :
    (getCellD tableTwoByTwoMerged 0 1).hidden = true ∧
    splitSelected tableTwoByTwoMerged ⟨0, 1, 0, 1⟩ = tableTwoByTwoMerged := by
  constructor
  · rfl
  · decide

/-- C1 (amended): for a selection whose start corner is the top-left corner
of the rectangle (`startRow ≤ endRow` and `startCol ≤ endCol`), over a
rectangle of non-hidden unit cells, merge followed by split with the same
selection restores the table exactly — every cell (hence every value) is as
before.  (With the corners exchanged the round trip fails, because split
reads the cell at the start corner, which is then a hidden unit member.) -/
theorem claim1_merge_split_round_trip (t : TableData) (s : TableSelection)
    (hr : s.startRow ≤ s.endRow) (hc : s.startCol ≤ s.endCol)
    (hu : unitRect t.cells s.startRow s.endRow s.startCol s.endCol = true) :
    splitSelected (mergeSelected t s) s = t := by
  have e1 : normMinRow s = s.startRow := min_eq_left hr
  have e2 : normMaxRow s = s.endRow := max_eq_right hr
  have e3 : normMinCol s = s.startCol := min_eq_left hc
  have e4 : normMaxCol s = s.endCol := max_eq_right hc
  obtain ⟨rootc, hgetroot, hrooth, hroot1, hroot2⟩ :=
    unitRect_spec hu s.startRow s.startCol (le_refl _) hr (le_refl _) hc
  unfold mergeSelected
  rw [e1, e2, e3, e4]
  by_cases hsingle : s.startRow = s.endRow ∧ s.startCol = s.endCol
  · unfold mergeRect
    rw [if_pos hsingle]
    have hrootD : getCellD t s.startRow s.startCol = rootc := by
      rw [getCellD, getCell, hgetroot]
      rfl
    simp only [splitSelected, hrootD]
    rw [if_pos ⟨hroot1, hroot2⟩]
  · have hhidF : hiddenInRect t.cells s.startRow s.endRow s.startCol s.endCol
        = false := by
      cases hH : hiddenInRect t.cells s.startRow s.endRow s.startCol s.endCol with
      | false => rfl
      | true =>
        obtain ⟨r, c, cell, ha, hb2, hc2, hd, hgetc, hhid⟩ :=
          hiddenInRect_eq_true_iff.mp hH
        obtain ⟨cell', hget', hh', _, _⟩ := unitRect_spec hu r c ha hb2 hc2 hd
        rw [hgetc, Option.some.injEq] at hget'
        rw [← hget'] at hh'
        rw [hhid] at hh'
        simp at hh'
    unfold mergeRect
    rw [if_neg hsingle, if_neg (by simp [hhidF])]
    have hrootM : getCellD
        { t with cells := mapGrid t.cells fun r c cell =>
            if s.startRow ≤ r ∧ r ≤ s.endRow ∧ s.startCol ≤ c ∧ c ≤ s.endCol then
              if r = s.startRow ∧ c = s.startCol then
                { cell with rowSpan := s.endRow - s.startRow + 1,
                            colSpan := s.endCol - s.startCol + 1 }
              else { cell with hidden := true }
            else cell }
        s.startRow s.startCol =
        { rootc with rowSpan := s.endRow - s.startRow + 1,
                     colSpan := s.endCol - s.startCol + 1 } := by
      rw [getCellD, getCell]
      show ((getCellOf (mapGrid t.cells _) s.startRow s.startCol).getD createCell) = _
      rw [getCellOf_mapGrid, hgetroot]
      simp only [Option.map_some', Option.getD_some]
      split_ifs with h1 h2
      · rfl
      · exact absurd (by simp) h2
      · exact absurd ⟨le_refl _, hr, le_refl _, hc⟩ h1
    simp only [splitSelected, hrootM]
    rw [if_neg (by
      rintro ⟨ha, hb2⟩
      have ha' : s.endRow - s.startRow + 1 = 1 := ha
      have hb2' : s.endCol - s.startCol + 1 = 1 := hb2
      exact hsingle ⟨by omega, by omega⟩)]
    simp only [mapGrid_mapGrid]
    refine .trans (congrArg (fun cs => { t with cells := cs })
      (mapGrid_id_of_getCellOf _ _ ?_)) rfl
    intro r c cell hgetc
    by_cases hin : s.startRow ≤ r ∧ r ≤ s.endRow ∧ s.startCol ≤ c ∧ c ≤ s.endCol
    · obtain ⟨cell', hget', hh', h1', h2'⟩ :=
        unitRect_spec hu r c hin.1 hin.2.1 hin.2.2.1 hin.2.2.2
      rw [hgetc, Option.some.injEq] at hget'
      subst hget'
      obtain ⟨hin1, hin2, hin3, hin4⟩ := hin
      rcases cell with ⟨v, rs, cs, hd⟩
      simp only at hh' h1' h2'
      subst hh'
      subst h1'
      subst h2'
      split_ifs <;> first | rfl | omega
    · beta_reduce
      split_ifs <;> first | rfl | omega

/-- C1 witness: merging the full rectangle of a fresh 2×2 table with the
selection anchored at the top-left corner and splitting with the same
selection restores the table. -/
theorem claim1_merge_split_round_trip_witness :
    splitSelected (mergeSelected tableTwoByTwo ⟨0, 0, 1, 1⟩) ⟨0, 0, 1, 1⟩ =
      tableTwoByTwo :=
  claim1_merge_split_round_trip tableTwoByTwo ⟨0, 0, 1, 1⟩ (by decide) (by decide)
    (by decide)

/-- C1 counterexample: with the corner order reversed — start corner
`(1,1)`, end corner `(0,0)` over the same all-unit rectangle — merge
followed by split with the same selection does not restore the table: split
reads the now-hidden unit cell at `(1,1)` and is a no-op. -/
theorem claim1_counterexample :
    unitRect tableTwoByTwo.cells 0 1 0 1 = true ∧
    splitSelected (mergeSelected tableTwoByTwo ⟨1, 1, 0, 0⟩) ⟨1, 1, 0, 0⟩ ≠
      tableTwoByTwo := by
  constructor
  · decide
  · decide

theorem getElem?_map_length_mapGrid (cells : List (List TableCell))
    (f : Nat → Nat → TableCell → TableCell) (r : Nat) :
    ((mapGrid cells f)[r]?).map List.length = (cells[r]?).map List.length := by
  rw [getElem?_mapGrid]
  cases h : cells[r]? <;> simp [length_mapIdxFrom]

theorem length_pasteCell (cells : List (List TableCell)) (row col : Nat)
    (v : List Char) : (pasteCell cells row col v).length = cells.length := by
  cases h : getCellOf cells row col with
  | none => simp [pasteCell, h]
  | some cell =>
    simp only [pasteCell, h]
    split_ifs
    · rfl
    · exact length_setAt _ _ _

theorem getElem?_map_length_pasteCell (cells : List (List TableCell))
    (row col : Nat) (v : List Char) (r : Nat) :
    ((pasteCell cells row col v)[r]?).map List.length =
      (cells[r]?).map List.length := by
  cases h : getCellOf cells row col with
  | none => simp [pasteCell, h]
  | some cell =>
    simp only [pasteCell, h]
    split_ifs
    · rfl
    · rw [getElem?_setAt]
      split_ifs with hr
      · subst hr
        cases hrow : cells[row]? <;> simp [length_setAt]
      · rfl

theorem length_pasteLineFrom (row : Nat) (vs : List (List Char)) :
    ∀ (cells : List (List TableCell)) (col : Nat),
      (pasteLineFrom row cells col vs).length = cells.length := by
  induction vs with
  | nil => intro cells col; rfl
  | cons v vs ih =>
    intro cells col
    simp only [pasteLineFrom]
    rw [ih, length_pasteCell]

theorem getElem?_map_length_pasteLineFrom (row : Nat) (vs : List (List Char)) :
    ∀ (cells : List (List TableCell)) (col r : Nat),
      ((pasteLineFrom row cells col vs)[r]?).map List.length =
        (cells[r]?).map List.length := by
  induction vs with
  | nil => intro cells col r; rfl
  | cons v vs ih =>
    intro cells col r
    simp only [pasteLineFrom]
    rw [ih, getElem?_map_length_pasteCell]

theorem length_pasteLinesFrom (lines : List (List (List Char))) :
    ∀ (cells : List (List TableCell)) (row col : Nat),
      (pasteLinesFrom cells row col lines).length = cells.length := by
  induction lines with
  | nil => intro cells row col; rfl
  | cons line rest ih =>
    intro cells row col
    simp only [pasteLinesFrom]
    rw [ih, length_pasteLineFrom]

theorem getElem?_map_length_pasteLinesFrom (lines : List (List (List Char))) :
    ∀ (cells : List (List TableCell)) (row col r : Nat),
      ((pasteLinesFrom cells row col lines)[r]?).map List.length =
        (cells[r]?).map List.length := by
  induction lines with
  | nil => intro cells row col r; rfl
  | cons line rest ih =>
    intro cells row col r
    simp only [pasteLinesFrom]
    rw [ih, getElem?_map_length_pasteLineFrom]

theorem rectangular_update_cells (t : TableData) (cellsB : List (List TableCell))
    (hlen : cellsB.length = t.cells.length)
    (hrows : ∀ r : Nat,
      (cellsB[r]?).map List.length = (t.cells[r]?).map List.length)
    (h : Rectangular t) : Rectangular { t with cells := cellsB } := by
  obtain ⟨h1, h2⟩ := h
  refine ⟨by rw [show ({ t with cells := cellsB } : TableData).cells = cellsB from rfl, hlen]; exact h1, ?_⟩
  intro row hmem
  rw [show ({ t with cells := cellsB } : TableData).cells = cellsB from rfl] at hmem
  rw [List.mem_iff_getElem?] at hmem
  obtain ⟨r, hr⟩ := hmem
  have hlr := hrows r
  rw [hr] at hlr
  cases hrow : t.cells[r]? with
  | none => rw [hrow] at hlr; simp at hlr
  | some rowB =>
    rw [hrow] at hlr
    simp only [Option.map_some', Option.some.injEq] at hlr
    rw [hlr]
    exact h2 rowB (by rw [List.mem_iff_getElem?]; exact ⟨r, hrow⟩)

theorem length_resize_colWidths (t : TableData) (nw nh : ℚ) :
    (resizeTable t nw nh).colWidths.length = t.colWidths.length :=
  List.length_map _ _

theorem length_resize_rowHeights (t : TableData) (nw nh : ℚ) :
    (resizeTable t nw nh).rowHeights.length = t.rowHeights.length :=
  List.length_map _ _

/-- C9: every table operation — `addRow`, `addCol`, `removeRow`, `removeCol`,
merge, split, paste, cell edit and resize — preserves grid rectangularity:
afterwards every row of `cells` has length `colWidths.length` and
`cells.length` equals `rowHeights.length`. -/
theorem claim9_rectangularity (t : TableData) (s : TableSelection)
    (row col : Nat) (v text : List Char) (nw nh : ℚ) (h : Rectangular t) :
    Rectangular (addRow t) ∧ Rectangular (addCol t) ∧
    Rectangular (removeRow t) ∧ Rectangular (removeCol t) ∧
    Rectangular (mergeSelected t s) ∧ Rectangular (splitSelected t s) ∧
    Rectangular (onPaste t s text) ∧ Rectangular (setCellValue t row col v) ∧
    Rectangular (resizeTable t nw nh) := by
  obtain ⟨h1, h2⟩ := h
  refine ⟨?_, ?_, ?_, ?_, ?_, ?_, ?_, ?_, ?_⟩
  · refine ⟨by simp [addRow, h1], ?_⟩
    intro r hmem
    simp only [addRow, List.mem_append, List.mem_singleton] at hmem
    rcases hmem with hm | hm
    · exact h2 r hm
    · subst hm
      simp [addRow]
  · refine ⟨by simp [addCol, h1], ?_⟩
    intro r hmem
    simp only [addCol, List.mem_map] at hmem
    obtain ⟨rowB, hmemB, rfl⟩ := hmem
    simp [addCol, h2 rowB hmemB]
  · unfold removeRow
    split_ifs with hle
    · exact ⟨h1, h2⟩
    · refine ⟨by simp [h1], ?_⟩
      intro r hmem
      exact h2 r (List.dropLast_subset _ hmem)
  · unfold removeCol
    split_ifs with hle
    · exact ⟨h1, h2⟩
    · refine ⟨by simpa using h1, ?_⟩
      intro r hmem
      simp only [List.mem_map] at hmem
      obtain ⟨rowB, hmemB, rfl⟩ := hmem
      simp [h2 rowB hmemB]
  · unfold mergeSelected mergeRect
    split_ifs
    · exact ⟨h1, h2⟩
    · exact ⟨h1, h2⟩
    · exact rectangular_update_cells t _ (length_mapGrid _ _)
        (getElem?_map_length_mapGrid _ _) ⟨h1, h2⟩
  · simp only [splitSelected]
    split_ifs
    · exact ⟨h1, h2⟩
    · exact rectangular_update_cells t _ (length_mapGrid _ _)
        (getElem?_map_length_mapGrid _ _) ⟨h1, h2⟩
  · simp only [onPaste]
    split_ifs
    · exact ⟨h1, h2⟩
    · exact rectangular_update_cells t _ (length_pasteLinesFrom _ _ _ _)
        (fun r => getElem?_map_length_pasteLinesFrom _ _ _ _ r) ⟨h1, h2⟩
  · have hrows : ∀ r : Nat,
        (((setCellValue t row col v).cells)[r]?).map List.length =
          (t.cells[r]?).map List.length := by
      intro r
      show ((setAt _ row t.cells)[r]?).map List.length = _
      rw [getElem?_setAt]
      split_ifs with hr
      · subst hr
        cases hrow : t.cells[row]? <;> simp [length_setAt]
      · rfl
    exact rectangular_update_cells t _ (length_setAt _ _ _) hrows ⟨h1, h2⟩
  · refine ⟨?_, ?_⟩
    · rw [length_resize_rowHeights]
      exact h1
    · intro r hmem
      rw [length_resize_colWidths]
      exact h2 r hmem

/-- C9 witness: rectangularity of the fresh 2×2 table is preserved by (for
example) `addRow`. -/
theorem claim9_rectangularity_witness : Rectangular (addRow tableTwoByTwo) :=
  (claim9_rectangularity tableTwoByTwo ⟨0, 0, 1, 1⟩ 0 0 [] [] 1 1 (by decide)).1

theorem round_cast_gt (x : ℚ) : x - 1 / 2 < ((round x : ℤ) : ℚ) := by
  rw [round_eq]
  have h := Int.sub_one_lt_floor (x + 1 / 2)
  push_cast at h ⊢
  linarith

theorem floor_mul_sum_le (flo : ℤ) (g : ℤ → ℤ) (l : List ℤ) :
    flo * (l.length : ℤ) ≤ (l.map fun w => max flo (g w)).sum := by
  induction l with
  | nil => simp
  | cons a as ih =>
    simp only [List.map_cons, List.sum_cons, List.length_cons]
    have h := le_max_left flo (g a)
    push_cast
    push_cast at ih
    linarith

theorem sum_max_round_gt (flo : ℤ) (r : ℚ) (l : List ℤ) (hne : l ≠ []) :
    (l.map fun (w : ℤ) => (w : ℚ) * r).sum - (l.length : ℚ) / 2 <
      (((l.map fun (w : ℤ) => max flo (round ((w : ℚ) * r))).sum : ℤ) : ℚ) := by
  induction l with
  | nil => exact absurd rfl hne
  | cons a as ih =>
    simp only [List.map_cons, List.sum_cons, List.length_cons]
    have h1 := round_cast_gt ((a : ℚ) * r)
    have h2 : ((round ((a : ℚ) * r) : ℤ) : ℚ) ≤
        ((max flo (round ((a : ℚ) * r)) : ℤ) : ℚ) := by
      exact_mod_cast le_max_right flo (round ((a : ℚ) * r))
    cases as with
    | nil =>
      simp only [List.map_nil, List.sum_nil, List.length_nil]
      push_cast
      push_cast at h1 h2
      linarith
    | cons b bs =>
      have ihs := ih (by simp)
      push_cast
      push_cast at h1 h2 ihs
      linarith

theorem sum_map_cast_mul (l : List ℤ) (r : ℚ) :
    (l.map fun (w : ℤ) => (w : ℚ) * r).sum = ((l.sum : ℤ) : ℚ) * r := by
  induction l with
  | nil => simp
  | cons a as ih =>
    simp only [List.map_cons, List.sum_cons, ih]
    push_cast
    ring

theorem resized_sum_ge (flo bound : ℤ) (target : ℚ) (l : List ℤ)
    (hpos : ∀ w ∈ l, 0 < w) (hne : l ≠ [])
    (hsplit : bound ≤ flo * (l.length : ℤ) ∨
      (bound : ℚ) - 1 ≤ target - (l.length : ℚ) / 2) :
    bound ≤ (l.map fun (w : ℤ) =>
      max flo (round ((w : ℚ) * (target / ((l.sum : ℤ) : ℚ))))).sum := by
  rcases hsplit with h | h
  · exact le_trans h (floor_mul_sum_le flo _ l)
  · have hS : 0 < l.sum := List.sum_pos l hpos hne
    have hSne : ((l.sum : ℤ) : ℚ) ≠ 0 := by
      simp only [ne_eq, Int.cast_eq_zero]
      omega
    have hgt := sum_max_round_gt flo (target / ((l.sum : ℤ) : ℚ)) l hne
    rw [sum_map_cast_mul, mul_comm, div_mul_cancel₀ target hSne] at hgt
    have hq : ((bound - 1 : ℤ) : ℚ) <
        (((l.map fun (w : ℤ) =>
          max flo (round ((w : ℚ) * (target / ((l.sum : ℤ) : ℚ))))).sum : ℤ) : ℚ) := by
      push_cast
      push_cast at hgt
      linarith
    have hz : bound - 1 < (l.map fun (w : ℤ) =>
        max flo (round ((w : ℚ) * (target / ((l.sum : ℤ) : ℚ))))).sum := by
      exact_mod_cast hq
    omega

/-- C3 (amended): after any resize of a nonempty grid with positive column
widths and row heights, every column width is at least 80, every row height
at least 34, the total width at least 240, and the total height at least 120
— except that with exactly 3 rows the realized total height can drop to 119
(the three roundings can each lose up to half a pixel against the 120
candidate floor, and the 34-per-row floor only guarantees 102). -/
theorem claim3_resize_floors (t : TableData) (nw nh : ℚ)
    (hw : ∀ w ∈ t.colWidths, 0 < w) (hh : ∀ h ∈ t.rowHeights, 0 < h)
    (hwne : t.colWidths ≠ []) (hhne : t.rowHeights ≠ []) :
    (∀ w ∈ (resizeTable t nw nh).colWidths, 80 ≤ w) ∧
    (∀ h ∈ (resizeTable t nw nh).rowHeights, 34 ≤ h) ∧
    240 ≤ (resizeTable t nw nh).colWidths.sum ∧
    119 ≤ (resizeTable t nw nh).rowHeights.sum ∧
    (t.rowHeights.length ≠ 3 → 120 ≤ (resizeTable t nw nh).rowHeights.sum) := by
  refine ⟨?_, ?_, ?_, ?_, ?_⟩
  · intro w hmem
    simp only [resizeTable, List.mem_map] at hmem
    obtain ⟨w0, _, rfl⟩ := hmem
    exact le_max_left _ _
  · intro hgt hmem
    simp only [resizeTable, List.mem_map] at hmem
    obtain ⟨h0, _, rfl⟩ := hmem
    exact le_max_left _ _
  · have hsp : (240 : ℤ) ≤ 80 * (t.colWidths.length : ℤ) ∨
        ((240 : ℤ) : ℚ) - 1 ≤ max 240 nw - (t.colWidths.length : ℚ) / 2 := by
      rcases Nat.lt_or_ge t.colWidths.length 3 with hlen | hlen
      · right
        have h2 : (t.colWidths.length : ℚ) ≤ 2 := by
          exact_mod_cast Nat.lt_succ_iff.mp hlen
        have h3 : (240 : ℚ) ≤ max 240 nw := le_max_left _ _
        push_cast
        linarith
      · left
        have h3 : (3 : ℤ) ≤ (t.colWidths.length : ℤ) := by exact_mod_cast hlen
        linarith
    exact resized_sum_ge 80 240 (max 240 nw) t.colWidths hw hwne hsp
  · have hsp : (119 : ℤ) ≤ 34 * (t.rowHeights.length : ℤ) ∨
        ((119 : ℤ) : ℚ) - 1 ≤ max 120 nh - (t.rowHeights.length : ℚ) / 2 := by
      rcases Nat.lt_or_ge t.rowHeights.length 4 with hlen | hlen
      · right
        have h2 : (t.rowHeights.length : ℚ) ≤ 3 := by
          exact_mod_cast Nat.lt_succ_iff.mp hlen
        have h3 : (120 : ℚ) ≤ max 120 nh := le_max_left _ _
        push_cast
        linarith
      · left
        have h3 : (4 : ℤ) ≤ (t.rowHeights.length : ℤ) := by exact_mod_cast hlen
        linarith
    exact resized_sum_ge 34 119 (max 120 nh) t.rowHeights hh hhne hsp
  · intro hlen3
    have hsp : (120 : ℤ) ≤ 34 * (t.rowHeights.length : ℤ) ∨
        ((120 : ℤ) : ℚ) - 1 ≤ max 120 nh - (t.rowHeights.length : ℚ) / 2 := by
      rcases Nat.lt_or_ge t.rowHeights.length 4 with hlen | hlen
      · right
        have h2 : t.rowHeights.length ≤ 2 := by omega
        have h2q : (t.rowHeights.length : ℚ) ≤ 2 := by exact_mod_cast h2
        have h3 : (120 : ℚ) ≤ max 120 nh := le_max_left _ _
        push_cast
        linarith
      · left
        have h3 : (4 : ℤ) ≤ (t.rowHeights.length : ℤ) := by exact_mod_cast hlen
        linarith
    exact resized_sum_ge 34 120 (max 120 nh) t.rowHeights hh hhne hsp

/-- C3 witness: resizing the fresh 2×2 table toward candidate totals
`(10, 10)` keeps every floor: both columns end at 120, both rows at 60,
totals 240 and 120. -/
theorem claim3_resize_floors_witness :
    240 ≤ (resizeTable tableTwoByTwo 10 10).colWidths.sum ∧
    120 ≤ (resizeTable tableTwoByTwo 10 10).rowHeights.sum :=
  ⟨(claim3_resize_floors tableTwoByTwo 10 10 (by decide) (by decide) (by decide)
      (by decide)).2.2.1,
    (claim3_resize_floors tableTwoByTwo 10 10 (by decide) (by decide) (by decide)
      (by decide)).2.2.2.2 (by decide)⟩

/-- C3 counterexample: the 3-row table with heights 101, 101, 98 (total 300)
resized toward candidate height 10 (clamped to 120) gets heights 40, 40, 39:
the realized total height is 119, below the claimed floor of 120. -/
theorem claim3_counterexample :
    (∀ h ∈ tableThreeRows.rowHeights, 0 < h) ∧
    (resizeTable tableThreeRows 480 10).rowHeights = [40, 40, 39] ∧
    (resizeTable tableThreeRows 480 10).rowHeights.sum = 119 := by
  have hmap : (resizeTable tableThreeRows 480 10).rowHeights = [40, 40, 39] := by
    show [(101 : ℤ), 101, 98].map (fun (h : ℤ) =>
      max 34 (round ((h : ℚ) * (max 120 10 / tableHeight tableThreeRows)))) = _
    have hth : tableHeight tableThreeRows = 300 := by
      norm_num [tableHeight, tableThreeRows]
    rw [hth]
    simp only [List.map_cons, List.map_nil]
    norm_num [round_eq]
  refine ⟨by decide, hmap, ?_⟩
  rw [hmap]
  decide

theorem splitSep_ne_nil (sep : Char) (x : List Char) : splitSep sep x ≠ [] := by
  induction x with
  | nil => simp [splitSep]
  | cons ch rest ih =>
    cases h : splitSep sep rest with
    | nil => exact absurd h ih
    | cons a as =>
      simp only [splitSep, h]
      split_ifs <;> simp

theorem splitSep_of_not_mem (sep : Char) (x : List Char) (h : sep ∉ x) :
    splitSep sep x = [x] := by
  induction x with
  | nil => rfl
  | cons ch rest ih =>
    have hne : ¬(ch = sep) := by
      intro heq
      exact h (by rw [heq]; exact List.mem_cons_self _ _)
    have hrest : sep ∉ rest := fun hm => h (List.mem_cons_of_mem _ hm)
    simp only [splitSep, ih hrest]
    rw [if_neg hne]

theorem splitSep_append (sep : Char) (x z : List Char) (h : sep ∉ x) :
    splitSep sep (x ++ sep :: z) = x :: splitSep sep z := by
  induction x with
  | nil =>
    simp only [List.nil_append]
    cases hz : splitSep sep z with
    | nil => exact absurd hz (splitSep_ne_nil sep z)
    | cons a as =>
      simp only [splitSep, hz]
      simp
  | cons ch rest ih =>
    have hne : ¬(ch = sep) := by
      intro heq
      exact h (by rw [heq]; exact List.mem_cons_self _ _)
    have hrest : sep ∉ rest := fun hm => h (List.mem_cons_of_mem _ hm)
    have ihr := ih hrest
    simp only [List.cons_append, splitSep, List.append_eq, ihr]
    rw [if_neg hne]

theorem splitSep_joinSep (sep : Char) (L : List (List Char)) (hne : L ≠ [])
    (h : ∀ x ∈ L, sep ∉ x) :
    splitSep sep (joinSep sep L) = L := by
  induction L with
  | nil => exact absurd rfl hne
  | cons x L ih =>
    cases L with
    | nil =>
      rw [show joinSep sep [x] = x from rfl]
      exact splitSep_of_not_mem sep x (h x (List.mem_cons_self _ _))
    | cons y L2 =>
      rw [show joinSep sep (x :: y :: L2) = x ++ sep :: joinSep sep (y :: L2) from rfl]
      rw [splitSep_append sep x _ (h x (List.mem_cons_self _ _))]
      rw [ih (by simp) fun z hz => h z (List.mem_cons_of_mem _ hz)]

theorem mem_joinSep {sep a : Char} {L : List (List Char)}
    (h : a ∈ joinSep sep L) : a = sep ∨ ∃ x ∈ L, a ∈ x := by
  induction L with
  | nil => simp [joinSep] at h
  | cons x L ih =>
    cases L with
    | nil =>
      rw [show joinSep sep [x] = x from rfl] at h
      exact Or.inr ⟨x, List.mem_cons_self _ _, h⟩
    | cons y L2 =>
      rw [show joinSep sep (x :: y :: L2) = x ++ sep :: joinSep sep (y :: L2) from rfl,
        List.mem_append, List.mem_cons] at h
      rcases h with h | h | h
      · exact Or.inr ⟨x, List.mem_cons_self _ _, h⟩
      · exact Or.inl h
      · rcases ih h with h | ⟨z, hz, ha⟩
        · exact Or.inl h
        · exact Or.inr ⟨z, List.mem_cons_of_mem _ hz, ha⟩

theorem getCellOf_pasteCell (cells : List (List TableCell)) (row col : Nat)
    (v : List Char) (r c : Nat) :
    getCellOf (pasteCell cells row col v) r c =
      if r = row ∧ c = col then
        (getCellOf cells r c).map fun cell =>
          if cell.hidden then cell else { cell with value := v }
      else getCellOf cells r c := by
  cases hget : getCellOf cells row col with
  | none =>
    simp only [pasteCell, hget]
    by_cases hrc : r = row ∧ c = col
    · obtain ⟨rfl, rfl⟩ := hrc
      rw [if_pos ⟨rfl, rfl⟩, hget]
      rfl
    · rw [if_neg hrc]
  | some cell0 =>
    simp only [pasteCell, hget]
    by_cases hh : cell0.hidden
    · rw [if_pos hh]
      by_cases hrc : r = row ∧ c = col
      · obtain ⟨rfl, rfl⟩ := hrc
        rw [if_pos ⟨rfl, rfl⟩, hget]
        simp [hh]
      · rw [if_neg hrc]
    · rw [if_neg hh]
      show getCellOf (setAt _ row cells) r c = _
      unfold getCellOf
      rw [getElem?_setAt]
      by_cases hrow : row = r
      · subst hrow
        rw [if_pos rfl]
        cases hcr : cells[row]? with
        | none =>
          unfold getCellOf at hget
          rw [hcr] at hget
          simp at hget
        | some rowCells =>
          have hgetr : rowCells[col]? = some cell0 := by
            unfold getCellOf at hget
            rw [hcr, Option.some_bind] at hget
            exact hget
          simp only [Option.map_some', Option.some_bind]
          rw [getElem?_setAt]
          by_cases hcol : col = c
          · subst hcol
            rw [if_pos rfl, hgetr]
            simp [hh]
          · rw [if_neg hcol, if_neg fun hand => hcol hand.2.symm]
      · rw [if_neg hrow, if_neg fun hand => hrow hand.1.symm]

theorem getCellOf_pasteLineFrom (row : Nat) (vs : List (List Char)) :
    ∀ (cells : List (List TableCell)) (col r c : Nat),
      getCellOf (pasteLineFrom row cells col vs) r c =
        if r = row ∧ col ≤ c then
          match vs[c - col]? with
          | some v => (getCellOf cells r c).map fun cell =>
              if cell.hidden then cell else { cell with value := v }
          | none => getCellOf cells r c
        else getCellOf cells r c := by
  induction vs with
  | nil =>
    intro cells col r c
    simp only [pasteLineFrom]
    split_ifs <;> rfl
  | cons v vs ih =>
    intro cells col r c
    simp only [pasteLineFrom]
    rw [ih, getCellOf_pasteCell]
    by_cases hrw : r = row
    · subst hrw
      rcases Nat.lt_trichotomy c col with hlt | heq | hgt
      · split_ifs <;> first | rfl | omega
      · subst heq
        rw [Nat.sub_self]
        simp only [List.getElem?_cons_zero]
        split_ifs <;> first | rfl | omega | simp_all
      · have hidx : c - col = (c - (col + 1)) + 1 := by omega
        rw [hidx, List.getElem?_cons_succ]
        cases hv : (vs[c - (col + 1)]?) <;> split_ifs <;>
          first | rfl | omega | simp_all
    · split_ifs <;> first | rfl | omega | simp_all

theorem getCellOf_pasteLinesFrom (lines : List (List (List Char))) :
    ∀ (cells : List (List TableCell)) (row col r c : Nat),
      getCellOf (pasteLinesFrom cells row col lines) r c =
        if row ≤ r ∧ col ≤ c then
          match lines[r - row]?.bind fun ln => ln[c - col]? with
          | some v => (getCellOf cells r c).map fun cell =>
              if cell.hidden then cell else { cell with value := v }
          | none => getCellOf cells r c
        else getCellOf cells r c := by
  induction lines with
  | nil =>
    intro cells row col r c
    simp only [pasteLinesFrom]
    split_ifs <;> rfl
  | cons line rest ih =>
    intro cells row col r c
    simp only [pasteLinesFrom]
    rw [ih, getCellOf_pasteLineFrom]
    rcases Nat.lt_trichotomy r row with hlt | heq | hgt
    · split_ifs <;> first | rfl | omega | simp_all
    · subst heq
      rw [Nat.sub_self]
      simp only [List.getElem?_cons_zero, Option.some_bind]
      split_ifs <;> first | rfl | omega | simp_all
    · have hidx : r - row = (r - (row + 1)) + 1 := by omega
      rw [hidx, List.getElem?_cons_succ]
      cases hv : ((rest[r - (row + 1)]?).bind fun ln => ln[c - col]?) <;>
        split_ifs <;> first | rfl | omega | simp_all

/-- C8 (amended): pasting any nonempty text splits it on newlines and tabs
and overwrites exactly the in-bounds, non-hidden targets, skipping the rest;
the grid's dimensions and every cell's spans and hidden flag are unchanged,
as are the table's other fields.  (Pasting the empty text is a no-op: the
source returns before splitting.) -/
theorem claim8_paste_semantics (t : TableData) (s : TableSelection)
    (text : List Char) (hne : text ≠ []) :
    (onPaste t s text).id = t.id ∧ (onPaste t s text).x = t.x ∧
    (onPaste t s text).y = t.y ∧
    (onPaste t s text).colWidths = t.colWidths ∧
    (onPaste t s text).rowHeights = t.rowHeights ∧
    (onPaste t s text).cells.length = t.cells.length ∧
    (∀ r : Nat, ((onPaste t s text).cells[r]?).map List.length =
      (t.cells[r]?).map List.length) ∧
    (∀ r c cell, getCell t r c = some cell →
      getCell (onPaste t s text) r c =
        some { cell with value :=
          match (if s.startRow ≤ r ∧ s.startCol ≤ c then
              ((splitSep '\n' text).map (splitSep '\t'))[r - s.startRow]?.bind
                fun ln => ln[c - s.startCol]?
            else none) with
          | some v => if cell.hidden then cell.value else v
          | none => cell.value }) := by
  have honp : onPaste t s text =
      { t with cells := (pasteLinesFrom t.cells s.startRow s.startCol
          ((splitSep '\n' text).map (splitSep '\t'))) } := by
    simp only [onPaste]
    rw [if_neg hne]
  rw [honp]
  refine ⟨rfl, rfl, rfl, rfl, rfl, length_pasteLinesFrom _ _ _ _,
    fun r => getElem?_map_length_pasteLinesFrom _ _ _ _ r, ?_⟩
  intro r c cell hget
  have hget' : getCellOf t.cells r c = some cell := hget
  show getCellOf (pasteLinesFrom t.cells s.startRow s.startCol _) r c = _
  rw [getCellOf_pasteLinesFrom]
  by_cases hin : s.startRow ≤ r ∧ s.startCol ≤ c
  · rw [if_pos hin, if_pos hin]
    cases hv : ((((splitSep '\n' text).map (splitSep '\t'))[r - s.startRow]?).bind
        fun ln => ln[c - s.startCol]?) with
    | none => rw [hget']
    | some v =>
      rw [hget']
      simp only [Option.map_some']
      rcases cell with ⟨cv, crs, ccs, ch⟩
      cases ch <;> simp
  · rw [if_neg hin, if_neg hin, hget']

/-- C8 witness: pasting `"Z"` at `(0,0)` of the fresh 2×2 table overwrites
that cell's value with `"Z"` and changes nothing else about the cell. -/
theorem claim8_paste_semantics_witness :
    getCell (onPaste tableTwoByTwo ⟨0, 0, 0, 0⟩ ['Z']) 0 0 =
      some { value := ['Z'], rowSpan := 1, colSpan := 1, hidden := false } := by
  have h := (claim8_paste_semantics tableTwoByTwo ⟨0, 0, 0, 0⟩ ['Z']
    (by decide)).2.2.2.2.2.2.2 0 0 createCell rfl
  exact h.trans (by decide)

/-- C8 counterexample: pasting the empty text is a no-op in the source
(early return on empty clipboard), although the claim's split-and-write
description demands that the in-bounds, non-hidden anchor cell be
overwritten with the empty string (splitting `""` yields `[[""]]`): the
anchor's value stays `"X"` instead of becoming `""`. -/
theorem claim8_counterexample :
    onPaste tableValueX ⟨0, 0, 0, 0⟩ [] = tableValueX ∧
    (getCellD tableValueX 0 0).hidden = false ∧
    (getCellD tableValueX 0 0).value = ['X'] ∧
    (splitSep '\n' []).map (splitSep '\t') = [[[]]] := by
  decide

/-- C7: copy produces exactly the text formed by taking, for each row of the
normalized rectangle in order, the cells' values — with the empty string for
every hidden cell — joined by a single tab, and joining the rows with a
single newline.  (The selection is assumed to lie inside the grid, as the UI
guarantees; out of bounds the source would throw.) -/
theorem claim7_copy_format (t : TableData) (s : TableSelection)
    (hb : rectInBounds t.cells (normMinRow s) (normMaxRow s) (normMinCol s)
      (normMaxCol s) = true) :
    copyText t s =
      joinSep '\n'
        (((List.range' (normMinRow s) (normMaxRow s + 1 - normMinRow s)).map fun r =>
          joinSep '\t'
            (((List.range' (normMinCol s) (normMaxCol s + 1 - normMinCol s)).map fun c =>
              if (getCellD t r c).hidden then [] else (getCellD t r c).value)))) := by
  unfold copyText copyRect
  have hrow : normMaxRow s + 1 - normMinRow s = normMaxRow s - normMinRow s + 1 := by
    have := normMinRow_le_normMaxRow s
    omega
  have hcol : normMaxCol s + 1 - normMinCol s = normMaxCol s - normMinCol s + 1 := by
    have := normMinCol_le_normMaxCol s
    omega
  rw [hrow, hcol, List.range'_eq_map_range, List.range'_eq_map_range,
    List.map_map]
  congr 1
  apply List.map_congr_left
  intro rOff hrOff
  simp only [Function.comp_apply]
  rw [List.map_map]
  congr 1
  apply List.map_congr_left
  intro cOff hcOff
  simp only [Function.comp_apply]
  cases hget : getCell t (normMinRow s + rOff) (normMinCol s + cOff) with
  | none => simp [getCellD, hget, createCell]
  | some cell => simp [getCellD, hget]

/-- C7 witness: Scenario B — copying the rectangle `(0,0)-(0,1)` of the grid
with `(0,0) = "A"`, `(0,1) = "B"` yields the clipboard text `"A\tB"`. -/
theorem claim7_copy_format_witness :
    copyText tableScenarioB ⟨0, 0, 0, 1⟩ = ['A', '\t', 'B'] := by
  have h := claim7_copy_format tableScenarioB ⟨0, 0, 0, 1⟩ (by decide)
  exact h.trans (by decide)

/-- C6 (amended): for a selection whose start corner is the rectangle's
top-left, over a rectangle of non-hidden cells none of whose values contains a
tab or a newline, pasting the text produced by copying the rectangle back at
the same anchor leaves the table exactly as it was.  (A value containing a
tab or newline is cut at the separator on re-paste, so the unamended claim
fails.) -/
theorem claim6_copy_paste_round_trip (t : TableData) (s : TableSelection)
    (hr : s.startRow ≤ s.endRow) (hc : s.startCol ≤ s.endCol)
    (hcp : copyableRect t.cells s.startRow s.endRow s.startCol s.endCol = true) :
    onPaste t s (copyText t s) = t := by
  have e1 : normMinRow s = s.startRow := min_eq_left hr
  have e2 : normMaxRow s = s.endRow := max_eq_right hr
  have e3 : normMinCol s = s.startCol := min_eq_left hc
  have e4 : normMaxCol s = s.endCol := max_eq_right hc
  have hspec := copyableRect_spec hcp
  have hcellD : ∀ r c, s.startRow ≤ r → r ≤ s.endRow → s.startCol ≤ c →
      c ≤ s.endCol →
      getCellOf t.cells r c = some (getCellD t r c) ∧
      (getCellD t r c).hidden = false ∧
      '\t' ∉ (getCellD t r c).value ∧ '\n' ∉ (getCellD t r c).value := by
    intro r c h1 h2 h3 h4
    obtain ⟨cell, hgetc, hh, ht, hnl⟩ := hspec r c h1 h2 h3 h4
    have hD : getCellD t r c = cell := by
      rw [getCellD, getCell, hgetc]
      rfl
    rw [hD]
    exact ⟨hgetc, hh, ht, hnl⟩
  by_cases hemp : copyText t s = []
  · rw [hemp]
    simp [onPaste]
  · have hR : copyText t s = joinSep '\n'
        ((List.range (s.endRow - s.startRow + 1)).map fun rOff => joinSep '\t'
          ((List.range (s.endCol - s.startCol + 1)).map fun cOff =>
            (getCellD t (s.startRow + rOff) (s.startCol + cOff)).value)) := by
      unfold copyText copyRect
      rw [e1, e2, e3, e4]
      congr 1
      apply List.map_congr_left
      intro rOff hrOff
      congr 1
      apply List.map_congr_left
      intro cOff hcOff
      rw [List.mem_range] at hrOff hcOff
      obtain ⟨hgetc, hh, -, -⟩ := hcellD (s.startRow + rOff) (s.startCol + cOff)
        (by omega) (by omega) (by omega) (by omega)
      rw [show getCell t (s.startRow + rOff) (s.startCol + cOff) =
        some (getCellD t (s.startRow + rOff) (s.startCol + cOff)) from hgetc]
      simp [hh]
    have hnl : ∀ x ∈ (List.range (s.endRow - s.startRow + 1)).map fun rOff =>
        joinSep '\t' ((List.range (s.endCol - s.startCol + 1)).map fun cOff =>
          (getCellD t (s.startRow + rOff) (s.startCol + cOff)).value),
        '\n' ∉ x := by
      intro x hx
      rw [List.mem_map] at hx
      obtain ⟨rOff, hrOff, rfl⟩ := hx
      intro hmem
      rcases mem_joinSep hmem with heq | ⟨val, hval, hmemv⟩
      · exact absurd heq (by decide)
      · rw [List.mem_map] at hval
        obtain ⟨cOff, hcOff, rfl⟩ := hval
        rw [List.mem_range] at hrOff hcOff
        obtain ⟨-, -, -, hnlv⟩ := hcellD (s.startRow + rOff) (s.startCol + cOff)
          (by omega) (by omega) (by omega) (by omega)
        exact hnlv hmemv
    have hlines : (splitSep '\n' (copyText t s)).map (splitSep '\t') =
        (List.range (s.endRow - s.startRow + 1)).map fun rOff =>
          (List.range (s.endCol - s.startCol + 1)).map fun cOff =>
            (getCellD t (s.startRow + rOff) (s.startCol + cOff)).value := by
      rw [hR, splitSep_joinSep '\n' _ (by simp) hnl, List.map_map]
      apply List.map_congr_left
      intro rOff hrOff
      simp only [Function.comp_apply]
      rw [List.mem_range] at hrOff
      have htab : ∀ x ∈ (List.range (s.endCol - s.startCol + 1)).map fun cOff =>
          (getCellD t (s.startRow + rOff) (s.startCol + cOff)).value, '\t' ∉ x := by
        intro x hx
        rw [List.mem_map] at hx
        obtain ⟨cOff, hcOff, rfl⟩ := hx
        rw [List.mem_range] at hcOff
        obtain ⟨-, -, htv, -⟩ := hcellD (s.startRow + rOff) (s.startCol + cOff)
          (by omega) (by omega) (by omega) (by omega)
        exact htv
      rw [splitSep_joinSep '\t' _ (by simp) htab]
    have hcells : pasteLinesFrom t.cells s.startRow s.startCol
        ((List.range (s.endRow - s.startRow + 1)).map fun rOff =>
          (List.range (s.endCol - s.startCol + 1)).map fun cOff =>
            (getCellD t (s.startRow + rOff) (s.startCol + cOff)).value) =
        t.cells := by
      apply grid_ext
      · exact length_pasteLinesFrom _ _ _ _
      · intro r c
        rw [getCellOf_pasteLinesFrom]
        by_cases hin : s.startRow ≤ r ∧ s.startCol ≤ c
        · rw [if_pos hin]
          by_cases hrin : r - s.startRow < s.endRow - s.startRow + 1
          · by_cases hcin : c - s.startCol < s.endCol - s.startCol + 1
            · have hscrut : ((((List.range (s.endRow - s.startRow + 1)).map fun rOff =>
                  (List.range (s.endCol - s.startCol + 1)).map fun cOff =>
                    (getCellD t (s.startRow + rOff) (s.startCol + cOff)).value)[r - s.startRow]?).bind
                    fun ln => ln[c - s.startCol]?) = some ((getCellD t r c).value) := by
                rw [List.getElem?_map, List.getElem?_range hrin]
                simp only [Option.map_some', Option.some_bind]
                rw [List.getElem?_map, List.getElem?_range hcin]
                simp only [Option.map_some']
                rw [show s.startRow + (r - s.startRow) = r by omega,
                  show s.startCol + (c - s.startCol) = c by omega]
              rw [hscrut]
              obtain ⟨hgetc, hh, -, -⟩ := hcellD r c hin.1 (by omega) hin.2 (by omega)
              rw [hgetc]
              simp [hh]
              rw [← hh]
            · have hscrut : ((((List.range (s.endRow - s.startRow + 1)).map fun rOff =>
                  (List.range (s.endCol - s.startCol + 1)).map fun cOff =>
                    (getCellD t (s.startRow + rOff) (s.startCol + cOff)).value)[r - s.startRow]?).bind
                    fun ln => ln[c - s.startCol]?) = none := by
                rw [List.getElem?_map, List.getElem?_range hrin]
                simp only [Option.map_some', Option.some_bind]
                apply List.getElem?_eq_none
                simpa using by omega
              rw [hscrut]
          · have hscrut : ((((List.range (s.endRow - s.startRow + 1)).map fun rOff =>
                (List.range (s.endCol - s.startCol + 1)).map fun cOff =>
                  (getCellD t (s.startRow + rOff) (s.startCol + cOff)).value)[r - s.startRow]?).bind
                  fun ln => ln[c - s.startCol]?) = none := by
              rw [List.getElem?_eq_none (by simpa using by omega)]
              rfl
            rw [hscrut]
        · rw [if_neg hin]
    simp only [onPaste]
    rw [if_neg hemp, hlines, hcells]

/-- C6 witness: copying the Scenario B rectangle `(0,0)-(0,1)` (values
`"A"`, `"B"`) and pasting the produced text back at the same anchor leaves
the table unchanged. -/
theorem claim6_copy_paste_round_trip_witness :
    onPaste tableScenarioB ⟨0, 0, 0, 1⟩ (copyText tableScenarioB ⟨0, 0, 0, 1⟩) =
      tableScenarioB :=
  claim6_copy_paste_round_trip tableScenarioB ⟨0, 0, 0, 1⟩ (by decide) (by decide)
    (by decide)

/-- C6 counterexample: a single non-hidden cell whose value is `"A\tB"`:
copying the 1×1 rectangle yields the text `"A\tB"`, and pasting it back at
the same anchor splits it at the tab, leaving the cell with value `"A"` —
the round trip does not reproduce the original values. -/
theorem claim6_counterexample :
    (getCellD tableTabValue 0 0).hidden = false ∧
    onPaste tableTabValue ⟨0, 0, 0, 0⟩ (copyText tableTabValue ⟨0, 0, 0, 0⟩) ≠
      tableTabValue := by
  decide

end SoftNotes
